import Mathlib

/-!
Shallow embedding of the lite-sdwan control-plane core (agent executor,
prober, controller client retry logic, and the controller route solver),
translated from the Python sources, together with theorems settling the
frozen specification claims.

External effects (subprocess execution, ICMP echo, HTTP transport) are
modelled as explicit oracle arguments: a function from the issued command
or attempt index to the observed outcome.  Machine floats are modelled as
rationals; the float value inf (used by the solver's cost history) is
modelled by an explicit Option, with none standing for plus infinity.
-/

namespace SdWan

/-- Boolean list-prefix test on characters (used to build a substring
test mirroring the Python `in` operator on strings). -/
def chPre : List Char → List Char → Bool
  | [], _ => true
  | _ :: _, [] => false
  | a :: as, b :: bs => a == b && chPre as bs

/-- Boolean substring containment: does `needle` occur contiguously in the
second list?  Mirrors Python's `needle in haystack` for strings. -/
def chSub (needle : List Char) : List Char → Bool
  | [] => chPre needle []
  | c :: t => chPre needle (c :: t) || chSub needle t

/-- Python `needle in haystack` on strings. -/
def strContainsSub (haystack needle : String) : Bool :=
  chSub needle.toList haystack.toList

/-- Python `s.endswith(suf)`. -/
def strEndsWith (s suf : String) : Bool :=
  chPre suf.toList.reverse s.toList.reverse

/-- Helper for `pySplit`: walk the characters, accumulating the current
word (reversed); whitespace flushes the accumulated word, so runs of
whitespace yield no empty pieces. -/
def splitWSAux : List Char → List Char → List (List Char)
  | [], acc => if acc = [] then [] else [acc.reverse]
  | c :: t, acc =>
    if Char.isWhitespace c then
      if acc = [] then splitWSAux t [] else acc.reverse :: splitWSAux t []
    else splitWSAux t (c :: acc)

/-- Python `str.split()` with no argument: split on runs of whitespace,
discarding empty pieces. -/
def pySplit (s : String) : List String :=
  (splitWSAux s.toList []).map String.mk

/-- Python `str.strip()`: drop whitespace from both ends. -/
def pyTrim (s : String) : String :=
  String.mk (((s.toList.dropWhile Char.isWhitespace).reverse.dropWhile
    Char.isWhitespace).reverse)

/-- Split a character list at every occurrence of the separator,
keeping empty pieces (Python `str.split(sep)` for a one-character
separator). -/
def splitOnChar (c : Char) : List Char → List (List Char)
  | [] => [[]]
  | x :: t =>
    match splitOnChar c t with
    | [] => if x = c then [[], []] else [[x]]
    | h :: r => if x = c then [] :: h :: r else (x :: h) :: r

/-- Python `s.split(c)` for a one-character separator. -/
def pySplitOn (c : Char) (s : String) : List String :=
  (splitOnChar c s.toList).map String.mk

/-- Python dict lookup `m.get(k)`: first binding for the key, if any. -/
def dictGet {α β : Type} [DecidableEq α] (m : List (α × β)) (k : α) : Option β :=
  match m with
  | [] => none
  | (k', v) :: t => if k' = k then some v else dictGet t k

/-- Python `k in m` for a dict modelled as an association list. -/
def dictHasKey {α β : Type} [DecidableEq α] (m : List (α × β)) (k : α) : Bool :=
  match m with
  | [] => false
  | (k', _) :: t => if k' = k then true else dictHasKey t k

/-- Python dict assignment `m[k] = v`: replace the value in place if the
key is present, otherwise append the binding (insertion order kept). -/
def dictInsert {α β : Type} [DecidableEq α] (m : List (α × β)) (k : α) (v : β) :
    List (α × β) :=
  if dictHasKey m k then
    m.map (fun p => if p.1 = k then (k, v) else p)
  else m ++ [(k, v)]

/-! ### IPv4 addresses and the allowed subnet

`ipaddress.ip_address` / membership in an `ip_network`, restricted to
IPv4 (the system only handles dotted-quad overlay addresses; any string
that does not parse as IPv4 makes `_is_ip_in_allowed_subnet` return
`False`, exactly as the Python `except ValueError` branch does). -/

/-- Parse one octet as `ipaddress` does: 1-3 digits, no leading zero
unless the octet is exactly "0", value at most 255. -/
def parseOctet (s : String) : Option ℕ :=
  let cs := s.toList
  if cs = [] then none
  else if ¬ cs.all Char.isDigit then none
  else if cs.length > 3 then none
  else if cs.length > 1 ∧ cs.headD ' ' = '0' then none
  else
    let v := cs.foldl (fun a c => a * 10 + (c.toNat - 48)) 0
    if v ≤ 255 then some v else none

/-- Parse a dotted-quad IPv4 address to its 32-bit value. -/
def parseIPv4 (s : String) : Option ℕ :=
  match (pySplitOn '.' s).map parseOctet with
  | [some a, some b, some c, some d] => some (((a * 256 + b) * 256 + c) * 256 + d)
  | _ => none

/-- The reconciler's configuration: overlay interface name and allowed
subnet, the latter held as its 32-bit network address and prefix length
(`ipaddress.ip_network` applied to the configured CIDR string). -/
structure Executor where
  wg_interface : String
  allowed_net : ℕ
  allowed_pre : ℕ
deriving DecidableEq, Repr

/-- The default construction `Executor("wg0", "10.254.0.0/24")`. -/
def defaultExecutor : Executor :=
  { wg_interface := "wg0"
    allowed_net := ((10 * 256 + 254) * 256 + 0) * 256 + 0
    allowed_pre := 24 }

/-- `Executor._is_ip_in_allowed_subnet`: parse the address and test
membership in the configured network; parse failure yields `False`. -/
def is_ip_in_allowed_subnet (e : Executor) (ip_str : String) : Bool :=
  match parseIPv4 ip_str with
  | none => false
  | some ip => ip / 2 ^ (32 - e.allowed_pre) = e.allowed_net / 2 ^ (32 - e.allowed_pre)

/-- `Executor.generate_route_add_command`. -/
def generate_route_add_command (e : Executor) (dst_ip next_hop : String) :
    Option (List String) :=
  if ¬ is_ip_in_allowed_subnet e dst_ip then none
  else if ¬ is_ip_in_allowed_subnet e next_hop then none
  else some ["ip", "route", "replace", dst_ip ++ "/32", "via", next_hop,
             "dev", e.wg_interface]

/-- `Executor.generate_route_del_command`. -/
def generate_route_del_command (e : Executor) (dst_ip : String) :
    Option (List String) :=
  if ¬ is_ip_in_allowed_subnet e dst_ip then none
  else some ["ip", "route", "del", dst_ip ++ "/32", "dev", e.wg_interface]

/-! ### Route diff -/

/-- `Executor.calculate_route_diff`: one pass over `desired` filling the
add and modify dicts, then one pass over `current` filling the delete
list, exactly as the two Python `for` loops do. -/
def calculate_route_diff (desired current : List (String × String)) :
    List (String × String) × List (String × String) × List String :=
  let am := desired.foldl
    (fun (acc : List (String × String) × List (String × String)) p =>
      if ¬ dictHasKey current p.1 then (acc.1 ++ [p], acc.2)
      else if dictGet current p.1 ≠ some p.2 then (acc.1, acc.2 ++ [p])
      else acc)
    ([], [])
  let dels := current.foldl
    (fun (acc : List String) p =>
      if ¬ dictHasKey desired p.1 then acc ++ [p.1] else acc)
    []
  (am.1, am.2, dels)

/-! ### Applying a route

`subprocess.run` on a generated command is modelled by an oracle from the
command to an outcome: either the command timed out (`TimeoutExpired`) or
it exited with a return code and stderr text. -/

/-- Outcome of running one forwarding-table command. -/
inductive ExecResult : Type
  | timedOut : ExecResult
  | exited (returncode : Int) (stderr : String) : ExecResult
deriving DecidableEq, Repr

/-- `Executor.apply_route`, returning both the Python result and the list
of forwarding-table commands actually issued.  In the "direct" branch the
delete runs without `check=True`, so any exit code is accepted and the
method returns `True`; only a timeout reaches the `except` branch.  In
the relay branch `check=True` turns a non-zero exit into
`CalledProcessError`, hence `False`. -/
def apply_route_full (e : Executor) (execCmd : List String → ExecResult)
    (dst_ip next_hop : String) : Bool × List (List String) :=
  if next_hop = "direct" then
    match generate_route_del_command e dst_ip with
    | none => (false, [])
    | some cmd =>
      match execCmd cmd with
      | ExecResult.timedOut => (false, [cmd])
      | ExecResult.exited _ _ => (true, [cmd])
  else
    match generate_route_add_command e dst_ip next_hop with
    | none => (false, [])
    | some cmd =>
      match execCmd cmd with
      | ExecResult.timedOut => (false, [cmd])
      | ExecResult.exited rc _ => (if rc = 0 then true else false, [cmd])

/-- `Executor.apply_route`'s boolean result. -/
def apply_route (e : Executor) (execCmd : List String → ExecResult)
    (dst_ip next_hop : String) : Bool :=
  (apply_route_full e execCmd dst_ip next_hop).1

/-! ### Reading the forwarding table

`Executor.get_current_routes` runs `ip route show table main`; its outcome
is modelled as `none` when the command fails (timeout, non-zero exit, or
any other exception — every `except` branch returns the empty dict) and
`some stdout` on success. -/

/-- The per-line parsing step of `Executor.get_current_routes`: strip the
line, skip empty lines and lines not containing the interface name as a
substring (the Python test is `self.wg_interface not in line`), split on
whitespace, skip short lines and destinations whose mask is not /32,
then record the
`via` next hop or `"direct"`. -/
def parse_route_line (iface : String) (m : List (String × String))
    (rawLine : String) : List (String × String) :=
  let line := pyTrim rawLine
  if line = "" then m
  else if ¬ strContainsSub line iface then m
  else
    let parts := pySplit line
    if parts.length < 3 then m
    else
      let dst := parts.headD ""
      let dstIp : Option String :=
        if strContainsSub dst "/" then
          if strEndsWith dst "/32" then some ((pySplitOn '/' dst).headD "")
          else none
        else some dst
      match dstIp with
      | none => m
      | some dst_ip =>
        if parts.contains "via" then
          let vi := parts.findIdx (fun t => t == "via")
          if vi + 1 < parts.length then dictInsert m dst_ip (parts.getD (vi + 1) "")
          else m
        else dictInsert m dst_ip "direct"

/-- `Executor.get_current_routes`: empty map on command failure, otherwise
fold the line parser over the command's stdout lines. -/
def get_current_routes (iface : String) (cmdOut : Option String) :
    List (String × String) :=
  match cmdOut with
  | none => []
  | some out => ((pySplitOn '\n' out).foldl (parse_route_line iface) [])

/-- The set of methods defined on the Python `Executor` class, in source
order.  The block at the end of `executor.py` that implements route
synchronisation carries no `def sync_routes(...)` header: it sits as
unreachable statements after the `try`/`except` of `flush_all_routes`,
so no `sync_routes` method exists on the class. -/
def executorMethods : List String :=
  ["__init__", "get_current_routes", "_is_ip_in_allowed_subnet",
   "generate_route_add_command", "generate_route_del_command",
   "calculate_route_diff", "apply_route", "flush_all_routes"]

/-! ### Prober

`ping3.ping` is modelled by its outcome for one probe: `some rtt_ms` for
a successful echo (already converted to milliseconds) and `none` for a
timeout or an exception inside `probe_once`. -/

/-- `SlidingWindowBuffer.append` on a `deque(maxlen)`: when the buffer is
at capacity, the oldest (leftmost) element is evicted. -/
def swb_append (maxlen : ℕ) (buf : List ℚ) (v : ℚ) : List ℚ :=
  if buf.length = maxlen then buf.drop 1 ++ [v] else buf ++ [v]

/-- `SlidingWindowBuffer.get_moving_average`. -/
def get_moving_average (l : List ℚ) : Option ℚ :=
  if l = [] then none else some (l.sum / l.length)

/-- The last `n` elements of a list (specification-side description of a
full sliding window). -/
def lastN (n : ℕ) (l : List ℚ) : List ℚ :=
  l.drop (l.length - n)

/-- The per-peer pair of sliding-window buffers allocated by `Prober`. -/
structure PeerBuffers where
  rtt : List ℚ
  loss : List ℚ
deriving DecidableEq, Repr

/-- Fresh buffers at Prober construction. -/
def emptyBuffers : PeerBuffers := { rtt := [], loss := [] }

/-- The loss indicator `probe_once` reports: 1.0 on timeout or exception,
0.0 on success. -/
def lossOf (res : Option ℚ) : ℚ :=
  match res with
  | none => 1
  | some _ => 0

/-- The buffer update `Prober.probe_all` performs for one peer after one
probe: the loss buffer is always appended; the RTT buffer is appended
only when `rtt_ms` is not `None`. -/
def probe_update (W : ℕ) (b : PeerBuffers) (res : Option ℚ) : PeerBuffers :=
  { rtt := match res with
      | some r => swb_append W b.rtt r
      | none => b.rtt
    loss := swb_append W b.loss (lossOf res) }

/-- The buffers of one peer after a sequence of probe cycles. -/
def probe_cycles (W : ℕ) (b : PeerBuffers) (outcomes : List (Option ℚ)) :
    PeerBuffers :=
  outcomes.foldl (probe_update W) b

/-- `Prober.get_smoothed_metrics` for one peer: moving-average RTT
(absent when the RTT buffer is empty) and moving-average loss, with an
empty loss buffer reported as 0.0. -/
def smoothed_metric (b : PeerBuffers) : Option ℚ × ℚ :=
  (get_moving_average b.rtt, (get_moving_average b.loss).getD 0)

/-! ### Controller client -/

/-- `RouteConfig` from `models.py` (string fields only). -/
structure RouteConfig where
  dst_cidr : String
  next_hop : String
  reason : String
deriving DecidableEq, Repr

/-- Outcome of one HTTP GET in `ControllerClient.fetch_routes`, as seen
by the code's branch structure: a 200 whose body parses into a routes
list, a 200 whose body lacks the routes field (or fails validation), a
404, some other status, or a transport-level exception. -/
inductive FetchOutcome : Type
  | ok (routes : List RouteConfig) : FetchOutcome
  | badBody : FetchOutcome
  | notFound : FetchOutcome
  | otherStatus (code : ℕ) : FetchOutcome
  | transportError : FetchOutcome
deriving DecidableEq, Repr

/-- `ControllerClient.fetch_routes`: `some` list only on a valid 200;
404, bad bodies, other statuses and transport errors all return `None`. -/
def fetch_routes (o : FetchOutcome) : Option (List RouteConfig) :=
  match o with
  | FetchOutcome.ok routes => some routes
  | FetchOutcome.badBody => none
  | FetchOutcome.notFound => none
  | FetchOutcome.otherStatus _ => none
  | FetchOutcome.transportError => none

/-- The loop body of `ControllerClient._retry_with_backoff`: attempt `i`
with `rem + 1` attempts remaining; a `some` result returns immediately,
otherwise sleep the backoff delay (recorded in the returned list) unless
this was the last attempt, and recurse.  A final `none` models the
`RetryExhausted` exception. -/
def retryGo {α : Type} (backoff : List ℕ) (ops : ℕ → Option α) :
    ℕ → ℕ → Option α × List ℕ
  | _, 0 => (none, [])
  | i, rem + 1 =>
    match ops i with
    | some r => (some r, [])
    | none =>
      if rem = 0 then (none, [])
      else
        let d := backoff.getD (min i (backoff.length - 1)) 0
        let rest := retryGo backoff ops (i + 1) rem
        (rest.1, d :: rest.2)

/-- `ControllerClient._retry_with_backoff` over `attempts` attempts,
returning the result (`none` = `RetryExhausted`) and the list of backoff
sleeps performed. -/
def retry_with_backoff {α : Type} (attempts : ℕ) (backoff : List ℕ)
    (ops : ℕ → Option α) : Option α × List ℕ :=
  retryGo backoff ops 0 attempts

/-- `ControllerClient.fetch_routes_with_retry`: retry `fetch_routes`
given the per-attempt HTTP outcomes; `RetryExhausted` is caught and
becomes `None`, which is the same value as the exhausted result. -/
def fetch_routes_with_retry (attempts : ℕ) (backoff : List ℕ)
    (responses : ℕ → FetchOutcome) : Option (List RouteConfig) × List ℕ :=
  retry_with_backoff attempts backoff (fun i => fetch_routes (responses i))

/-- The fallback decision of one pass of `Agent._executor_loop` after
telemetry: the agent calls `_enter_fallback_mode` when telemetry fails,
or when `fetch_routes_with_retry` produced `None` (either returned or
via `RetryExhausted`). -/
def cycle_enters_fallback (telemetry_ok : Bool)
    (fetched : Option (List RouteConfig)) : Bool :=
  if ¬ telemetry_ok then true else fetched.isNone

/-! ### Path solver

`nx.shortest_path` / `nx.shortest_path_length` are modelled by an oracle
from the target node to `none` (the `NetworkXNoPath` / `NodeNotFound`
exceptions) or `some (path, cost)`, with `cost = none` standing for the
float value `inf` (an unreachable target whose path exists only through
infinite-weight edges). -/

/-- One step of `graphNodes`: `networkx` adds a node only if absent. -/
def insertNode (ns : List String) (x : String) : List String :=
  if ns.contains x then ns else ns ++ [x]

/-- The node set (in insertion order) of the graph built by
`RouteSolver.build_graph`: one node per reporting agent id, then every
edge target is added as a node by `G.add_edge`.  Edge weights are not
represented here; they live behind the shortest-path oracle. -/
def graphNodes (td : List (String × List (String × Option ℚ × ℚ))) :
    List String :=
  (td.map Prod.fst ++ td.flatMap (fun e => e.2.map Prod.fst)).foldl insertNode []

/-- The hysteresis gate `new_cost < old_cost * (1 - self.hysteresis)`,
with `old = none` standing for the float `inf` default: the comparison
`c < inf * (1 - h)` holds exactly when `1 - h > 0`. -/
def hysteresis_ok (hyst : ℚ) (new_cost : ℚ) (old : Option ℚ) : Bool :=
  match old with
  | none => decide (0 < 1 - hyst)
  | some o => decide (new_cost < o * (1 - hyst))

/-- The body of the per-target loop of `RouteSolver.compute_routes_for`,
threading the accumulated route list and the `previous_costs` history. -/
def solve_target (hyst : ℚ) (src : String)
    (sp : String → Option (List String × Option ℚ))
    (acc : List RouteConfig × List ((String × String) × ℚ)) (target : String) :
    List RouteConfig × List ((String × String) × ℚ) :=
  if target = src then acc
  else
    match sp target with
    | none => acc
    | some (_, none) => acc
    | some (path, some c) =>
      if hysteresis_ok hyst c (dictGet acc.2 (src, target)) then
        let h2 := dictInsert acc.2 (src, target) c
        if path.length = 1 then (acc.1, h2)
        else if path.length = 2 then
          (acc.1 ++ [{ dst_cidr := target ++ "/32", next_hop := "direct",
                       reason := "default" }], h2)
        else
          (acc.1 ++ [{ dst_cidr := target ++ "/32", next_hop := path.getD 1 "",
                       reason := "optimized_path" }], h2)
      else acc

/-- `RouteSolver.compute_routes_for`: empty result when the source agent
is not a node, otherwise the per-target loop over all graph nodes.  The
returned pair is (emitted routes, updated `previous_costs`). -/
def compute_routes_for (hyst : ℚ) (src : String)
    (td : List (String × List (String × Option ℚ × ℚ)))
    (sp : String → Option (List String × Option ℚ))
    (hist : List ((String × String) × ℚ)) :
    List RouteConfig × List ((String × String) × ℚ) :=
  let nodes := graphNodes td
  if nodes.contains src then nodes.foldl (solve_target hyst src sp) ([], hist)
  else ([], hist)

/-- A two-node topology (agents A and B) used for the concrete
hysteresis scenario; edge weights are irrelevant here because the
shortest-path computation is behind the oracle. -/
def hystExampleTd : List (String × List (String × Option ℚ × ℚ)) :=
  [("A", [("B", none, 1)]), ("B", [])]

/-- A shortest-path oracle answering only for target B: the direct
two-node path at the given cost. -/
def hystExampleSp (c : ℚ) : String → Option (List String × Option ℚ) :=
  fun t => if t = "B" then some (["A", "B"], some c) else none

/-! ## Theorems -/

/-- C1: the specification says the agent coordinator invokes the
Reconciler's sync operation in step 6 of each sync cycle, computing the
diff and applying ADD, MODIFY, DELETE entries.  In the source this is
impossible: `executor.py` contains the synchronisation body only as
unreachable statements after the `try`/`except` of `flush_all_routes`
(there is no `def sync_routes` header), so the `Executor` class exposes
no `sync_routes` method and the call `self.executor.sync_routes(routes)`
in `Agent._executor_loop` raises `AttributeError`. -/
theorem C1_sync_routes_method_missing :
    executorMethods.contains "sync_routes" = false := by decide

/-- Helper: the retry wrapper with an operation that fails on every
attempt returns `none` (the `RetryExhausted` outcome). -/
theorem retryGo_all_none {α : Type} (backoff : List ℕ) (ops : ℕ → Option α)
    (h : ∀ i, ops i = none) : ∀ rem i, (retryGo backoff ops i rem).1 = none := by
  intro rem
  induction rem with
  | zero => intro i; rfl
  | succ n ih =>
    intro i
    by_cases hn : n = 0 <;> simp [retryGo, h i, hn, ih (i + 1)]

/-- C2 (amended): an HTTP 404 makes `fetch_routes` return `None`, which
is exactly the failure sentinel of `_retry_with_backoff`; so when every
attempt is answered with 404 the fetch is retried until exhaustion,
`fetch_routes_with_retry` yields `None`, and the executor loop enters
fallback mode on that basis alone. -/
theorem C2_fetch_404_amended (attempts : ℕ) (backoff : List ℕ)
    (responses : ℕ → FetchOutcome)
    (h : ∀ i, responses i = FetchOutcome.notFound) :
    fetch_routes (responses 0) = none ∧
    (fetch_routes_with_retry attempts backoff responses).1 = none ∧
    cycle_enters_fallback true
      (fetch_routes_with_retry attempts backoff responses).1 = true := by
  have hall : ∀ i, fetch_routes (responses i) = none := by
    intro i; rw [h i]; rfl
  have hres : (fetch_routes_with_retry attempts backoff responses).1 = none :=
    retryGo_all_none backoff _ hall attempts 0
  exact ⟨hall 0, hres, by simp [cycle_enters_fallback, hres]⟩

/-- C2, witness for the amended theorem at the default retry policy. -/
theorem C2_witness :
    (fetch_routes_with_retry 3 [1, 2, 4] (fun _ => FetchOutcome.notFound)).1 = none ∧
    cycle_enters_fallback true
      (fetch_routes_with_retry 3 [1, 2, 4] (fun _ => FetchOutcome.notFound)).1 = true :=
  ⟨(C2_fetch_404_amended 3 [1, 2, 4] (fun _ => FetchOutcome.notFound)
      (fun _ => rfl)).2.1,
   (C2_fetch_404_amended 3 [1, 2, 4] (fun _ => FetchOutcome.notFound)
      (fun _ => rfl)).2.2⟩

/-- C2, counterexample to the claim as stated: with the default policy
(3 attempts, backoff [1,2,4]) and the controller answering every fetch
attempt with HTTP 404, the client performs two backoff sleeps (so the
404 does participate in the retry machinery) and the agent's executor
loop enters fallback mode on that basis alone. -/
theorem C2_counterexample :
    fetch_routes FetchOutcome.notFound = none ∧
    fetch_routes_with_retry 3 [1, 2, 4] (fun _ => FetchOutcome.notFound)
      = (none, [1, 2]) ∧
    cycle_enters_fallback true
      (fetch_routes_with_retry 3 [1, 2, 4] (fun _ => FetchOutcome.notFound)).1
      = true := by decide

/-- C10: an attempt answered by HTTP 200 with a body parsing to an empty
routes list is a success of that same attempt: `fetch_routes` returns
the empty list, `_retry_with_backoff` accepts it at once (`[]` is not
`None`), so there is no retry, no backoff sleep, and no `RetryExhausted`. -/
theorem C10_empty_list_success (attempts : ℕ) (backoff : List ℕ)
    (responses : ℕ → FetchOutcome) (ha : 0 < attempts)
    (h0 : responses 0 = FetchOutcome.ok []) :
    fetch_routes_with_retry attempts backoff responses = (some [], []) := by
  cases attempts with
  | zero => exact absurd ha (lt_irrefl 0)
  | succ n =>
    simp [fetch_routes_with_retry, retry_with_backoff, retryGo, h0, fetch_routes]

/-- C10, witness at the default retry policy. -/
theorem C10_witness :
    0 < 3 ∧ fetch_routes_with_retry 3 [1, 2, 4] (fun _ => FetchOutcome.ok [])
      = (some [], []) :=
  ⟨by decide, C10_empty_list_success 3 [1, 2, 4] _ (by decide) rfl⟩

/-- C5 (amended): `apply_route(dst, "direct")` issues the host-route
delete; the delete runs without an exit-status check, so any non-zero
exit — not only "route does not exist" — is treated as success, and only
a timeout of the delete command marks the destination as failed for the
cycle. -/
theorem C5_delete_amended (e : Executor) (execCmd : List String → ExecResult)
    (dst_ip : String) (h : is_ip_in_allowed_subnet e dst_ip = true) :
    apply_route e execCmd dst_ip "direct" =
      (match execCmd ["ip", "route", "del", dst_ip ++ "/32", "dev", e.wg_interface] with
       | ExecResult.timedOut => false
       | ExecResult.exited _ _ => true) := by
  simp only [apply_route, apply_route_full, if_pos rfl,
    generate_route_del_command, h]
  cases hE : execCmd ["ip", "route", "del", dst_ip ++ "/32", "dev", e.wg_interface] <;>
    simp [hE]

/-- C5, witness: a timed-out delete fails the destination. -/
theorem C5_witness :
    is_ip_in_allowed_subnet defaultExecutor "10.254.0.4" = true ∧
    apply_route defaultExecutor (fun _ => ExecResult.timedOut)
      "10.254.0.4" "direct" = false :=
  ⟨by decide,
   by rw [C5_delete_amended defaultExecutor (fun _ => ExecResult.timedOut)
       "10.254.0.4" (by decide)]⟩

/-- C5, counterexample to the claim as stated: a delete that exits with
code 2 and a stderr that is not "route does not exist" is still reported
as success by `apply_route`, whereas the claim requires any non-zero
exit other than "route does not exist" to mark the destination failed. -/
theorem C5_counterexample :
    apply_route defaultExecutor
      (fun _ => ExecResult.exited 2 "RTNETLINK answers: Operation not permitted")
      "10.254.0.3" "direct" = true := by decide

/-- C6: if the destination lies outside the allowed subnet, or the next
hop is not "direct" and lies outside the allowed subnet, then
`apply_route` issues no forwarding-table command at all and the call
fails. -/
theorem C6_subnet_safety (e : Executor) (execCmd : List String → ExecResult)
    (dst_ip next_hop : String)
    (h : is_ip_in_allowed_subnet e dst_ip = false ∨
      (next_hop ≠ "direct" ∧ is_ip_in_allowed_subnet e next_hop = false)) :
    apply_route_full e execCmd dst_ip next_hop = (false, []) := by
  rcases h with h | ⟨hnd, h⟩
  · by_cases hd : next_hop = "direct" <;>
      simp [apply_route_full, hd, generate_route_del_command,
        generate_route_add_command, h]
  · by_cases hd : is_ip_in_allowed_subnet e dst_ip <;>
      simp [apply_route_full, hnd, generate_route_add_command, h, hd]

/-- C6, witness: an out-of-subnet destination and an out-of-subnet
non-direct next hop each produce no command and a failed call. -/
theorem C6_witness :
    apply_route_full defaultExecutor (fun _ => ExecResult.exited 0 "")
      "192.168.1.5" "10.254.0.2" = (false, []) ∧
    apply_route_full defaultExecutor (fun _ => ExecResult.exited 0 "")
      "10.254.0.3" "192.168.1.5" = (false, []) :=
  ⟨C6_subnet_safety defaultExecutor _ "192.168.1.5" "10.254.0.2"
     (Or.inl (by decide)),
   C6_subnet_safety defaultExecutor _ "10.254.0.3" "192.168.1.5"
     (Or.inr ⟨by decide, by decide⟩)⟩

/-- C9 (amended): `read_current` maps "D via H dev IFACE" to D → H and
"D dev IFACE" to D → "direct", assumes /32 when the destination has no
suffix, ignores entries whose mask is not /32, and returns an empty map
on command failure; but the interface filter is substring containment of
the interface name in the whole line, so only lines NOT containing the
name as a substring are ignored — an entry bound to a different
interface whose name contains the configured one (e.g. wg01 for wg0) is
still parsed. -/
theorem C9_read_current_amended (iface : String) (m : List (String × String))
    (line : String) (h : strContainsSub (pyTrim line) iface = false) :
    parse_route_line iface m line = m ∧
    get_current_routes iface none = [] ∧
    get_current_routes "wg0"
      (some ("10.254.0.3 via 10.254.0.2 dev wg0\n10.254.0.4 dev wg0\n" ++
        "10.254.0.5/32 via 10.254.0.2 dev wg0\n10.254.0.0/24 dev wg0\n" ++
        "10.254.0.7 dev eth0"))
      = [("10.254.0.3", "10.254.0.2"), ("10.254.0.4", "direct"),
         ("10.254.0.5", "10.254.0.2")] := by
  refine ⟨?_, rfl, by decide⟩
  by_cases he : pyTrim line = "" <;> simp [parse_route_line, he, h]

/-- C9, witness: a line bound to another interface whose name does not
contain the configured name is ignored, and command failure yields the
empty map. -/
theorem C9_witness :
    parse_route_line "wg0" [] "10.254.0.7 dev eth0" = [] ∧
    get_current_routes "wg0" none = [] :=
  ⟨(C9_read_current_amended "wg0" [] "10.254.0.7 dev eth0" (by decide)).1,
   (C9_read_current_amended "wg0" [] "10.254.0.7 dev eth0" (by decide)).2.1⟩

/-- C9, counterexample to the claim as stated: with configured interface
"wg0", a host route bound to the different interface "wg01" is not
ignored — it is parsed into the returned map, because the code only
tests substring containment of "wg0" in the line. -/
theorem C9_counterexample :
    get_current_routes "wg0" (some "10.254.0.9 via 10.254.0.2 dev wg01")
      = [("10.254.0.9", "10.254.0.2")] := by decide

/-! ### Association-list dictionary lemmas -/

/-- A dict has a key exactly when some binding for it is present. -/
theorem dictHasKey_iff {α β : Type} [DecidableEq α] (m : List (α × β)) (k : α) :
    dictHasKey m k = true ↔ ∃ v, (k, v) ∈ m := by
  induction m with
  | nil => simp [dictHasKey]
  | cons p t ih =>
    obtain ⟨a, b⟩ := p
    by_cases hk : a = k
    · subst hk
      refine ⟨fun _ => ⟨b, List.mem_cons_self _ _⟩, fun _ => by simp [dictHasKey]⟩
    · simp [dictHasKey, hk, ih, Prod.ext_iff, Ne.symm hk]

/-- Keys found by `dictGet` are exactly the keys present. -/
theorem dictGet_isSome_iff {α β : Type} [DecidableEq α]
    (m : List (α × β)) (k : α) :
    (dictGet m k).isSome = dictHasKey m k := by
  induction m with
  | nil => simp [dictGet, dictHasKey]
  | cons p t ih =>
    obtain ⟨a, b⟩ := p
    by_cases hk : a = k <;> simp [dictGet, dictHasKey, hk, ih]

/-- The add/modify pass of `calculate_route_diff` is the pair of filters
of `desired` by "key absent from current" and "key present with a
different next hop". -/
theorem diff_am_spec (current : List (String × String)) :
    ∀ (desired : List (String × String)) (a b : List (String × String)),
    desired.foldl
      (fun (acc : List (String × String) × List (String × String)) p =>
        if ¬ dictHasKey current p.1 then (acc.1 ++ [p], acc.2)
        else if dictGet current p.1 ≠ some p.2 then (acc.1, acc.2 ++ [p])
        else acc) (a, b)
    = (a ++ desired.filter (fun p => !(dictHasKey current p.1)),
       b ++ desired.filter (fun p =>
         dictHasKey current p.1 && !(dictGet current p.1 == some p.2))) := by
  intro desired
  induction desired with
  | nil => intro a b; simp
  | cons p t ih =>
    intro a b
    rw [List.foldl_cons]
    show List.foldl _ (if ¬ dictHasKey current p.1 then (a ++ [p], b)
        else if dictGet current p.1 ≠ some p.2 then (a, b ++ [p]) else (a, b))
        t = _
    by_cases hc : dictHasKey current p.1
    · by_cases hv : dictGet current p.1 = some p.2
      · rw [if_neg (by simp [hc]), if_neg (by simp [hv]), ih]
        simp [List.filter_cons, hc, hv]
      · rw [if_neg (by simp [hc]), if_pos hv, ih]
        simp [List.filter_cons, hc, hv]
    · rw [if_pos (by simp [hc]), ih]
      simp [List.filter_cons, hc]

/-- The delete pass of `calculate_route_diff` lists the keys of
`current` absent from `desired`, in order. -/
theorem diff_del_spec (desired : List (String × String)) :
    ∀ (current : List (String × String)) (a : List String),
    current.foldl
      (fun (acc : List String) p =>
        if ¬ dictHasKey desired p.1 then acc ++ [p.1] else acc) a
    = a ++ (current.filter (fun p => !(dictHasKey desired p.1))).map Prod.fst := by
  intro current
  induction current with
  | nil => intro a; simp
  | cons p t ih =>
    intro a
    rw [List.foldl_cons]
    show List.foldl _ (if ¬ dictHasKey desired p.1 then a ++ [p.1] else a) t = _
    by_cases hc : dictHasKey desired p.1
    · rw [if_neg (by simp [hc]), ih]
      simp [List.filter_cons, hc]
    · rw [if_pos (by simp [hc]), ih]
      simp [List.filter_cons, hc]

/-- C7: `calculate_route_diff` returns ADD = the bindings of desired
whose key is absent from current, MODIFY = the bindings of desired whose
key is present in current with a different next hop, DELETE = the keys
of current absent from desired; the three key sets are pairwise
disjoint. -/
theorem C7_diff_correct (desired current : List (String × String)) :
    (∀ k v, (k, v) ∈ (calculate_route_diff desired current).1 ↔
       ((k, v) ∈ desired ∧ dictHasKey current k = false)) ∧
    (∀ k v, (k, v) ∈ (calculate_route_diff desired current).2.1 ↔
       ((k, v) ∈ desired ∧ dictHasKey current k = true ∧
        dictGet current k ≠ some v)) ∧
    (∀ k, k ∈ (calculate_route_diff desired current).2.2 ↔
       (dictHasKey current k = true ∧ dictHasKey desired k = false)) ∧
    (∀ k, ¬ ((∃ v, (k, v) ∈ (calculate_route_diff desired current).1) ∧
       ∃ v, (k, v) ∈ (calculate_route_diff desired current).2.1)) ∧
    (∀ k, ¬ ((∃ v, (k, v) ∈ (calculate_route_diff desired current).1) ∧
       k ∈ (calculate_route_diff desired current).2.2)) ∧
    (∀ k, ¬ ((∃ v, (k, v) ∈ (calculate_route_diff desired current).2.1) ∧
       k ∈ (calculate_route_diff desired current).2.2)) := by
  have hd : calculate_route_diff desired current
      = (desired.filter (fun p => !(dictHasKey current p.1)),
         desired.filter (fun p =>
           dictHasKey current p.1 && !(dictGet current p.1 == some p.2)),
         (current.filter (fun p => !(dictHasKey desired p.1))).map Prod.fst) := by
    unfold calculate_route_diff
    rw [diff_am_spec current desired [] [], diff_del_spec desired current []]
    simp
  rw [hd]
  have hadd : ∀ k v, (k, v) ∈ desired.filter (fun p => !(dictHasKey current p.1))
      ↔ ((k, v) ∈ desired ∧ dictHasKey current k = false) := by
    intro k v; simp [List.mem_filter]
  have hmod : ∀ k v, (k, v) ∈ desired.filter (fun p =>
        dictHasKey current p.1 && !(dictGet current p.1 == some p.2))
      ↔ ((k, v) ∈ desired ∧ dictHasKey current k = true ∧
         dictGet current k ≠ some v) := by
    intro k v; simp [List.mem_filter]
  have hdel : ∀ k, k ∈ (current.filter
        (fun p => !(dictHasKey desired p.1))).map Prod.fst
      ↔ (dictHasKey current k = true ∧ dictHasKey desired k = false) := by
    intro k
    simp only [List.mem_map, List.mem_filter]
    constructor
    · rintro ⟨⟨k', v⟩, ⟨hmem, hnk⟩, rfl⟩
      refine ⟨(dictHasKey_iff current k').2 ⟨v, hmem⟩, by simpa using hnk⟩
    · rintro ⟨hck, hdk⟩
      obtain ⟨v, hv⟩ := (dictHasKey_iff current k).1 hck
      exact ⟨(k, v), ⟨hv, by simpa using hdk⟩, rfl⟩
  refine ⟨hadd, hmod, hdel, ?_, ?_, ?_⟩
  · rintro k ⟨⟨v₁, h₁⟩, ⟨v₂, h₂⟩⟩
    rw [hadd] at h₁; rw [hmod] at h₂
    rw [h₁.2] at h₂; exact absurd h₂.2.1 (by simp)
  · rintro k ⟨⟨v₁, h₁⟩, h₂⟩
    rw [hadd] at h₁; rw [hdel] at h₂
    have : dictHasKey desired k = true := (dictHasKey_iff desired k).2 ⟨v₁, h₁.1⟩
    rw [h₂.2] at this; exact absurd this (by simp)
  · rintro k ⟨⟨v₁, h₁⟩, h₂⟩
    rw [hmod] at h₁; rw [hdel] at h₂
    have : dictHasKey desired k = true := (dictHasKey_iff desired k).2 ⟨v₁, h₁.1⟩
    rw [h₂.2] at this; exact absurd this (by simp)

/-! ### Sliding-window lemmas -/

/-- Appending to a full sliding window keeps the last `W` samples. -/
theorem swb_append_lastN (W : ℕ) (hW : 1 ≤ W) (l : List ℚ) (v : ℚ) :
    swb_append W (lastN W l) v = lastN W (l ++ [v]) := by
  by_cases hge : W ≤ l.length
  · have h1 : (lastN W l).length = W := by simp [lastN]; omega
    rw [swb_append, if_pos h1, lastN, lastN, List.drop_drop]
    simp only [List.length_append, List.length_singleton]
    rw [List.drop_append_of_le_length (by omega)]
    have he : l.length - W + 1 = l.length + 1 - W := by omega
    rw [he]
  · have h0 : l.length - W = 0 := by omega
    have h1 : lastN W l = l := by simp [lastN, h0]
    rw [h1, swb_append, if_neg (by omega), lastN]
    simp only [List.length_append, List.length_singleton]
    have h2 : l.length + 1 - W = 0 := by omega
    rw [h2, List.drop_zero]

/-- The per-peer buffers after any probe sequence: the loss buffer holds
the last `W` loss indicators of all probes, the RTT buffer holds the
last `W` round-trip times of the successful probes only. -/
theorem probe_cycles_spec (W : ℕ) (hW : 1 ≤ W) (outcomes : List (Option ℚ)) :
    probe_cycles W emptyBuffers outcomes
    = { rtt := lastN W (outcomes.filterMap id),
        loss := lastN W (outcomes.map lossOf) } := by
  induction outcomes using List.reverseRecOn with
  | nil => simp [probe_cycles, emptyBuffers, lastN]
  | append_singleton l x ih =>
    rw [probe_cycles, List.foldl_append] at *
    rw [ih]
    cases x <;>
      simp [probe_update, lossOf, swb_append_lastN W hW,
        List.filterMap_append, List.map_append]

/-- C4: for every sequence of probe outcomes, the loss buffer receives
an entry for every probe (1.0 on timeout, 0.0 on success) while the RTT
buffer receives entries only for successes — the buffers hold the last
`W` such samples; consequently, with `W = 10`, seven successes at 50 ms
and three timeouts smooth to rtt 50.0 and loss 0.3, and ten timeouts
smooth to rtt absent and loss 1.0. -/
theorem C4_probe_buffers (W : ℕ) (hW : 1 ≤ W) (outcomes : List (Option ℚ)) :
    (probe_cycles W emptyBuffers outcomes).loss = lastN W (outcomes.map lossOf) ∧
    (probe_cycles W emptyBuffers outcomes).rtt
      = lastN W (outcomes.filterMap id) ∧
    smoothed_metric (probe_cycles 10 emptyBuffers
      (List.replicate 7 (some 50) ++ List.replicate 3 none)) = (some 50, 3 / 10) ∧
    smoothed_metric (probe_cycles 10 emptyBuffers (List.replicate 10 none))
      = (none, 1) := by
  refine ⟨?_, ?_, ?_, ?_⟩
  · rw [probe_cycles_spec W hW]
  · rw [probe_cycles_spec W hW]
  · norm_num +decide [probe_cycles, probe_update, swb_append, lossOf,
      emptyBuffers, smoothed_metric, get_moving_average, List.replicate]
  · norm_num +decide [probe_cycles, probe_update, swb_append, lossOf,
      emptyBuffers, smoothed_metric, get_moving_average, List.replicate]

/-- C4, witness at window size 10 with the claim's probe scenario. -/
theorem C4_witness :
    1 ≤ 10 ∧
    smoothed_metric (probe_cycles 10 emptyBuffers
      (List.replicate 7 (some 50) ++ List.replicate 3 none)) = (some 50, 3 / 10) :=
  ⟨by decide, (C4_probe_buffers 10 (by decide) []).2.2.1⟩

/-! ### More association-list lemmas, for the solver's cost history -/

/-- Lookup in an appended dict falls through to the right part only when
the left part lacks the key. -/
theorem dictGet_append {α β : Type} [DecidableEq α] (m l : List (α × β)) (k : α) :
    dictGet (m ++ l) k
      = match dictGet m k with
        | some v => some v
        | none => dictGet l k := by
  induction m with
  | nil => simp [dictGet]
  | cons p t ih =>
    obtain ⟨a, b⟩ := p
    by_cases hk : a = k <;> simp [dictGet, hk, ih]

/-- Unfolding equation for `dictGet` on a cons cell. -/
theorem dictGet_cons {α β : Type} [DecidableEq α] (a : α) (b : β)
    (t : List (α × β)) (k : α) :
    dictGet ((a, b) :: t) k = if a = k then some b else dictGet t k := rfl

/-- Unfolding equation for `dictHasKey` on a cons cell. -/
theorem dictHasKey_cons {α β : Type} [DecidableEq α] (a : α) (b : β)
    (t : List (α × β)) (k : α) :
    dictHasKey ((a, b) :: t) k = if a = k then true else dictHasKey t k := rfl

/-- Replacing the bindings of one key leaves other lookups unchanged. -/
theorem dictGet_map_replace {α β : Type} [DecidableEq α] (m : List (α × β))
    (k k' : α) (v : β) (h : k' ≠ k) :
    dictGet (m.map (fun p => if p.1 = k' then (k', v) else p)) k = dictGet m k := by
  induction m with
  | nil => rfl
  | cons p t ih =>
    obtain ⟨a, b⟩ := p
    rw [List.map_cons]
    change dictGet ((if a = k' then (k', v) else (a, b)) :: _) k = _
    by_cases ha : a = k'
    · rw [if_pos ha, dictGet_cons, dictGet_cons,
        if_neg h, if_neg (ha ▸ h), ih]
    · rw [if_neg ha, dictGet_cons, dictGet_cons]
      by_cases hak : a = k
      · rw [if_pos hak, if_pos hak]
      · rw [if_neg hak, if_neg hak, ih]

/-- Replacing the bindings of a present key makes its lookup the new
value. -/
theorem dictGet_replace_self {α β : Type} [DecidableEq α] (k : α) (v : β) :
    ∀ m : List (α × β), dictHasKey m k = true →
      dictGet (m.map (fun p => if p.1 = k then (k, v) else p)) k = some v := by
  intro m
  induction m with
  | nil => intro h; simp [dictHasKey] at h
  | cons p t ih =>
    intro h
    obtain ⟨a, b⟩ := p
    rw [List.map_cons]
    change dictGet ((if a = k then (k, v) else (a, b)) :: _) k = some v
    by_cases ha : a = k
    · rw [if_pos ha, dictGet_cons, if_pos rfl]
    · rw [dictHasKey_cons, if_neg ha] at h
      rw [if_neg ha, dictGet_cons, if_neg ha, ih h]

/-- Lookup after `dictInsert` at the inserted key. -/
theorem dictGet_dictInsert_self {α β : Type} [DecidableEq α]
    (m : List (α × β)) (k : α) (v : β) :
    dictGet (dictInsert m k v) k = some v := by
  unfold dictInsert
  by_cases hk : dictHasKey m k
  · rw [if_pos hk]; exact dictGet_replace_self k v m hk
  · rw [if_neg hk, dictGet_append]
    have h2 : (dictGet m k).isSome = false := by
      rw [dictGet_isSome_iff]; simpa using hk
    have h3 : dictGet m k = none := by
      cases hc : dictGet m k with
      | none => rfl
      | some w => rw [hc] at h2; simp at h2
    rw [h3]; simp [dictGet]

/-- Lookup after `dictInsert` at a different key. -/
theorem dictGet_dictInsert_ne {α β : Type} [DecidableEq α]
    (m : List (α × β)) (k k' : α) (v : β) (h : k ≠ k') :
    dictGet (dictInsert m k' v) k = dictGet m k := by
  unfold dictInsert
  by_cases hk : dictHasKey m k'
  · rw [if_pos hk]; exact dictGet_map_replace m k k' v (Ne.symm h)
  · rw [if_neg hk, dictGet_append]
    cases hc : dictGet m k with
    | some w => simp
    | none => simp [dictGet, Ne.symm h]

/-! ### Solver lemmas -/

/-- The node list of the built graph has no duplicates (`networkx` node
sets are sets). -/
theorem insertNode_nodup (ns : List String) (x : String) (h : ns.Nodup) :
    (insertNode ns x).Nodup := by
  unfold insertNode
  by_cases hc : ns.contains x
  · rw [if_pos hc]; exact h
  · rw [if_neg hc]
    rw [List.nodup_append]
    refine ⟨h, List.nodup_singleton x, ?_⟩
    intro a ha hax
    rw [List.mem_singleton] at hax
    subst hax
    exact hc (List.elem_iff.2 ha)

/-- Folding `insertNode` preserves freedom from duplicates. -/
theorem foldl_insertNode_nodup (l : List String) :
    ∀ ns : List String, ns.Nodup → (l.foldl insertNode ns).Nodup := by
  induction l with
  | nil => intro ns h; exact h
  | cons x t ih => intro ns h; exact ih _ (insertNode_nodup ns x h)

/-- The graph node list has no duplicates. -/
theorem graphNodes_nodup (td : List (String × List (String × Option ℚ × ℚ))) :
    (graphNodes td).Nodup :=
  foldl_insertNode_nodup _ [] List.nodup_nil

/-- Appending the "/32" suffix is injective on destination strings. -/
theorem append32_inj {a b : String} (h : a ++ "/32" = b ++ "/32") : a = b := by
  have hd : a.data ++ "/32".data = b.data ++ "/32".data := by
    have := congrArg String.data h
    simpa [String.data_append] using this
  have hab : a.data = b.data := List.append_cancel_right hd
  cases a; cases b; exact congrArg String.mk hab

/-- The spelled-out hysteresis gate: with an empty history slot (the
float `inf` default) the comparison holds exactly when `1 - h` is
positive; with a recorded cost it is the strict improvement test. -/
theorem hysteresis_ok_iff (hyst c : ℚ) (old : Option ℚ) :
    hysteresis_ok hyst c old = true ↔
      ((old = none ∧ 0 < 1 - hyst) ∨
       (∃ h₀, old = some h₀ ∧ c < h₀ * (1 - hyst))) := by
  cases old <;> simp [hysteresis_ok]

/-- A solver step that does not emit leaves the accumulator unchanged. -/
theorem solve_target_skip (hyst : ℚ) (src : String)
    (sp : String → Option (List String × Option ℚ))
    (acc : List RouteConfig × List ((String × String) × ℚ)) (t : String)
    (h : t = src ∨ sp t = none ∨ (∃ p, sp t = some (p, none)) ∨
      (∃ p c, sp t = some (p, some c) ∧
        hysteresis_ok hyst c (dictGet acc.2 (src, t)) = false)) :
    solve_target hyst src sp acc t = acc := by
  by_cases hts : t = src
  · simp [solve_target, hts]
  · rcases h with h | h | ⟨p, h⟩ | ⟨p, c, h, hg⟩
    · exact absurd h hts
    · simp [solve_target, hts, h]
    · simp [solve_target, hts, h]
    · simp [solve_target, hts, h, hg]

/-- A solver step that emits: the route is appended and the history slot
for `(src, t)` is set to the new cost. -/
theorem solve_target_emit (hyst : ℚ) (src : String)
    (sp : String → Option (List String × Option ℚ))
    (acc : List RouteConfig × List ((String × String) × ℚ)) (t : String)
    (p : List String) (c : ℚ) (hts : t ≠ src) (hsp : sp t = some (p, some c))
    (hg : hysteresis_ok hyst c (dictGet acc.2 (src, t)) = true)
    (hlen : 2 ≤ p.length) :
    solve_target hyst src sp acc t =
      (acc.1 ++ [if p.length = 2 then
          { dst_cidr := t ++ "/32", next_hop := "direct", reason := "default" }
        else { dst_cidr := t ++ "/32", next_hop := p.getD 1 "",
               reason := "optimized_path" }],
       dictInsert acc.2 (src, t) c) := by
  by_cases hl2 : p.length = 2 <;>
    simp [solve_target, hts, hsp, hg, hl2, show p.length ≠ 1 by omega]

/-- Each solver step either keeps the history or writes the slot of its
own target. -/
theorem solve_target_hist (hyst : ℚ) (src : String)
    (sp : String → Option (List String × Option ℚ))
    (acc : List RouteConfig × List ((String × String) × ℚ)) (t : String) :
    (solve_target hyst src sp acc t).2 = acc.2 ∨
      ∃ c, (solve_target hyst src sp acc t).2 = dictInsert acc.2 (src, t) c := by
  by_cases hts : t = src
  · left; simp [solve_target, hts]
  · cases hsp : sp t with
    | none => left; simp [solve_target, hts, hsp]
    | some pr =>
      obtain ⟨p, copt⟩ := pr
      cases copt with
      | none => left; simp [solve_target, hts, hsp]
      | some c =>
        by_cases hg : hysteresis_ok hyst c (dictGet acc.2 (src, t))
        · right
          refine ⟨c, ?_⟩
          by_cases hl1 : p.length = 1
          · simp [solve_target, hts, hsp, hg, hl1]
          · by_cases hl2 : p.length = 2 <;>
              simp [solve_target, hts, hsp, hg, hl1, hl2]
        · left; simp [solve_target, hts, hsp, hg]

/-- Each solver step either keeps the route list or appends one route of
the shape the source constructs for its own target. -/
theorem solve_target_routes (hyst : ℚ) (src : String)
    (sp : String → Option (List String × Option ℚ))
    (acc : List RouteConfig × List ((String × String) × ℚ)) (t : String) :
    (solve_target hyst src sp acc t).1 = acc.1 ∨
      ∃ p c, t ≠ src ∧ sp t = some (p, some c) ∧
        ((p.length = 2 ∧ (solve_target hyst src sp acc t).1 = acc.1 ++
            [{ dst_cidr := t ++ "/32", next_hop := "direct", reason := "default" }]) ∨
         (p.length ≠ 1 ∧ p.length ≠ 2 ∧ (solve_target hyst src sp acc t).1 = acc.1 ++
            [{ dst_cidr := t ++ "/32", next_hop := p.getD 1 "",
               reason := "optimized_path" }])) := by
  by_cases hts : t = src
  · left; simp [solve_target, hts]
  · cases hsp : sp t with
    | none => left; simp [solve_target, hts, hsp]
    | some pr =>
      obtain ⟨p, copt⟩ := pr
      cases copt with
      | none => left; simp [solve_target, hts, hsp]
      | some c =>
        by_cases hg : hysteresis_ok hyst c (dictGet acc.2 (src, t))
        · by_cases hl1 : p.length = 1
          · left; simp [solve_target, hts, hsp, hg, hl1]
          · by_cases hl2 : p.length = 2
            · right
              exact ⟨p, c, hts, rfl, Or.inl ⟨hl2,
                by simp [solve_target, hts, hsp, hg, hl1, hl2]⟩⟩
            · right
              exact ⟨p, c, hts, rfl, Or.inr ⟨hl1, hl2,
                by simp [solve_target, hts, hsp, hg, hl1, hl2]⟩⟩
        · left; simp [solve_target, hts, hsp, hg]

/-- Folding solver steps over targets other than `T` leaves the history
slot of `(src, T)` unchanged. -/
theorem foldl_solve_hist (hyst : ℚ) (src : String)
    (sp : String → Option (List String × Option ℚ)) (T : String) :
    ∀ (l : List String) (acc : List RouteConfig × List ((String × String) × ℚ)),
      (∀ t ∈ l, t ≠ T) →
      dictGet ((l.foldl (solve_target hyst src sp) acc).2) (src, T)
        = dictGet acc.2 (src, T) := by
  intro l
  induction l with
  | nil => intro acc _; rfl
  | cons t l ih =>
    intro acc hne
    rw [List.foldl_cons, ih _ (fun x hx => hne x (List.mem_cons_of_mem t hx))]
    rcases solve_target_hist hyst src sp acc t with h | ⟨c, h⟩
    · rw [h]
    · rw [h, dictGet_dictInsert_ne]
      intro hc
      exact hne t (List.mem_cons_self t l) (congrArg Prod.snd hc).symm

/-- Routes already accumulated survive further solver steps. -/
theorem foldl_solve_routes_mono (hyst : ℚ) (src : String)
    (sp : String → Option (List String × Option ℚ)) :
    ∀ (l : List String) (acc : List RouteConfig × List ((String × String) × ℚ))
      (r : RouteConfig), r ∈ acc.1 →
      r ∈ (l.foldl (solve_target hyst src sp) acc).1 := by
  intro l
  induction l with
  | nil => intro acc r h; exact h
  | cons t l ih =>
    intro acc r h
    rw [List.foldl_cons]
    refine ih _ r ?_
    rcases solve_target_routes hyst src sp acc t with hs | ⟨p, c, _, _, hsh⟩
    · rw [hs]; exact h
    · rcases hsh with ⟨_, hs⟩ | ⟨_, _, hs⟩ <;>
        · rw [hs]; exact List.mem_append_left _ h

/-- Every route produced by a fold of solver steps is either inherited
from the accumulator or has the shape the source constructs for one of
the traversed targets. -/
theorem foldl_solve_routes_sound (hyst : ℚ) (src : String)
    (sp : String → Option (List String × Option ℚ)) :
    ∀ (l : List String) (acc : List RouteConfig × List ((String × String) × ℚ))
      (r : RouteConfig), r ∈ (l.foldl (solve_target hyst src sp) acc).1 →
      r ∈ acc.1 ∨ ∃ t, t ∈ l ∧ t ≠ src ∧ ∃ p c, sp t = some (p, some c) ∧
        r.dst_cidr = t ++ "/32" ∧
        ((p.length = 2 ∧ r.next_hop = "direct" ∧ r.reason = "default") ∨
         (p.length ≠ 1 ∧ p.length ≠ 2 ∧ r.next_hop = p.getD 1 "" ∧
          r.reason = "optimized_path")) := by
  intro l
  induction l with
  | nil => intro acc r h; exact Or.inl h
  | cons t l ih =>
    intro acc r h
    rw [List.foldl_cons] at h
    rcases ih _ r h with hmem | ⟨t', ht', hts', rest⟩
    · rcases solve_target_routes hyst src sp acc t with hs | ⟨p, c, hts, hsp, hsh⟩
      · rw [hs] at hmem; exact Or.inl hmem
      · rcases hsh with ⟨hl2, hs⟩ | ⟨hl1, hl2, hs⟩
        · rw [hs] at hmem
          rcases List.mem_append.1 hmem with hmem | hmem
          · exact Or.inl hmem
          · rw [List.mem_singleton] at hmem
            subst hmem
            exact Or.inr ⟨t, List.mem_cons_self t l, hts, p, c, hsp, rfl,
              Or.inl ⟨hl2, rfl, rfl⟩⟩
        · rw [hs] at hmem
          rcases List.mem_append.1 hmem with hmem | hmem
          · exact Or.inl hmem
          · rw [List.mem_singleton] at hmem
            subst hmem
            exact Or.inr ⟨t, List.mem_cons_self t l, hts, p, c, hsp, rfl,
              Or.inr ⟨hl1, hl2, rfl, rfl⟩⟩
    · exact Or.inr ⟨t', List.mem_cons_of_mem t ht', hts', rest⟩

/-- C8: the route list emitted by `compute_routes_for` for source S has
no entry whose destination is S and no entry whose computed path cost is
infinite (every emitted route comes from a finite oracle cost); an
emitted route for a 2-node path has next hop "direct" with reason
"default", one for a path of 3 or more nodes has the path's second node
as next hop with reason "optimized_path"; and if S is not a graph node
the list is empty with the history untouched. -/
theorem C8_solver_invariants (hyst : ℚ) (src : String)
    (td : List (String × List (String × Option ℚ × ℚ)))
    (sp : String → Option (List String × Option ℚ))
    (hist : List ((String × String) × ℚ)) :
    (¬ (graphNodes td).contains src = true →
      compute_routes_for hyst src td sp hist = ([], hist)) ∧
    (∀ r ∈ (compute_routes_for hyst src td sp hist).1,
      r.dst_cidr ≠ src ++ "/32" ∧
      ∃ t path c, t ∈ graphNodes td ∧ t ≠ src ∧ sp t = some (path, some c) ∧
        r.dst_cidr = t ++ "/32" ∧
        (path.length = 2 → r.next_hop = "direct" ∧ r.reason = "default") ∧
        (3 ≤ path.length → r.next_hop = path.getD 1 "" ∧
          r.reason = "optimized_path")) := by
  constructor
  · intro h
    simp only [compute_routes_for]
    rw [if_neg h]
  · intro r hr
    by_cases hc : (graphNodes td).contains src
    · rw [show compute_routes_for hyst src td sp hist
          = (graphNodes td).foldl (solve_target hyst src sp) ([], hist) from by
        simp only [compute_routes_for]; rw [if_pos hc]] at hr
      rcases foldl_solve_routes_sound hyst src sp (graphNodes td) ([], hist) r hr
        with hmem | ⟨t, htl, hts, p, c, hsp, hdst, hshape⟩
      · simp at hmem
      · refine ⟨?_, t, p, c, htl, hts, hsp, hdst, ?_, ?_⟩
        · rw [hdst]
          intro hEq
          exact hts (append32_inj hEq)
        · intro h2
          rcases hshape with ⟨_, hnh, hrr⟩ | ⟨_, hl2, _⟩
          · exact ⟨hnh, hrr⟩
          · exact absurd h2 hl2
        · intro h3
          rcases hshape with ⟨hl2, _, _⟩ | ⟨_, _, hnh, hrr⟩
          · omega
          · exact ⟨hnh, hrr⟩
    · simp only [compute_routes_for] at hr
      rw [if_neg hc] at hr
      simp at hr

/-- C8, witness: a source absent from the graph yields no routes and an
unchanged history. -/
theorem C8_witness :
    compute_routes_for 0.15 "Z" hystExampleTd (hystExampleSp 80) [] = ([], []) :=
  (C8_solver_invariants 0.15 "Z" hystExampleTd (hystExampleSp 80) []).1 (by decide)

/-- C3: with the cost-history slot for (S,T) defaulting to plus infinity,
`compute_routes_for` emits a route for T exactly when the oracle reports
a finite cost c that passes the hysteresis gate — always when the slot
is empty (and the fraction is below 1), and otherwise exactly when
c < h₀·(1 − hysteresis) against the recorded cost h₀; on emission the
slot is set to c, otherwise it is unchanged; concretely, with recorded
cost 100 and fraction 0.15, a new cost 90 is not emitted and the history
stays 100, while a new cost 80 is emitted and the history becomes 80. -/
theorem C3_hysteresis (hyst : ℚ) (src T : String)
    (td : List (String × List (String × Option ℚ × ℚ)))
    (sp : String → Option (List String × Option ℚ))
    (hist : List ((String × String) × ℚ))
    (hsrc : (graphNodes td).contains src = true)
    (hT : T ∈ graphNodes td) (hTs : T ≠ src)
    (hpath : ∀ p c, sp T = some (p, some c) → 2 ≤ p.length) :
    ((∃ r ∈ (compute_routes_for hyst src td sp hist).1,
        r.dst_cidr = T ++ "/32") ↔
      (∃ p c, sp T = some (p, some c) ∧
        ((dictGet hist (src, T) = none ∧ 0 < 1 - hyst) ∨
         (∃ h₀, dictGet hist (src, T) = some h₀ ∧ c < h₀ * (1 - hyst))))) ∧
    (∀ p c, sp T = some (p, some c) →
      hysteresis_ok hyst c (dictGet hist (src, T)) = true →
      dictGet (compute_routes_for hyst src td sp hist).2 (src, T) = some c) ∧
    (∀ p c, sp T = some (p, some c) →
      hysteresis_ok hyst c (dictGet hist (src, T)) = false →
      dictGet (compute_routes_for hyst src td sp hist).2 (src, T)
        = dictGet hist (src, T)) ∧
    (hyst < 1 → ∀ c₀ : ℚ, hysteresis_ok hyst c₀ none = true) ∧
    compute_routes_for 0.15 "A" hystExampleTd (hystExampleSp 90)
      [(("A", "B"), 100)] = ([], [(("A", "B"), 100)]) ∧
    compute_routes_for 0.15 "A" hystExampleTd (hystExampleSp 80)
      [(("A", "B"), 100)]
      = ([{ dst_cidr := "B" ++ "/32", next_hop := "direct",
            reason := "default" }],
         [(("A", "B"), 80)]) := by
  obtain ⟨l₁, l₂, hsplit⟩ := List.append_of_mem hT
  have nd := graphNodes_nodup td
  rw [hsplit] at nd
  rw [List.nodup_append] at nd
  have hTl₁ : T ∉ l₁ := fun hmem =>
    nd.2.2 hmem (List.mem_cons_self T l₂)
  have hTl₂ : T ∉ l₂ := (List.nodup_cons.1 nd.2.1).1
  have hl₁ne : ∀ t ∈ l₁, t ≠ T := fun t ht hEq => hTl₁ (hEq ▸ ht)
  have hl₂ne : ∀ t ∈ l₂, t ≠ T := fun t ht hEq => hTl₂ (hEq ▸ ht)
  have hcompute : compute_routes_for hyst src td sp hist
      = List.foldl (solve_target hyst src sp)
          (solve_target hyst src sp
            (List.foldl (solve_target hyst src sp) ([], hist) l₁) T) l₂ := by
    simp only [compute_routes_for]
    rw [if_pos hsrc, hsplit, List.foldl_append, List.foldl_cons]
  set A := List.foldl (solve_target hyst src sp) ([], hist) l₁ with hA
  have hAhist : dictGet A.2 (src, T) = dictGet hist (src, T) :=
    foldl_solve_hist hyst src sp T l₁ ([], hist) hl₁ne
  have hAroutes : ∀ r ∈ A.1, r.dst_cidr ≠ T ++ "/32" := by
    intro r hr
    rcases foldl_solve_routes_sound hyst src sp l₁ ([], hist) r hr with
      hmem | ⟨t, htl, _, p, c, _, hdst, _⟩
    · simp at hmem
    · rw [hdst]
      intro hEq
      exact hTl₁ (append32_inj hEq ▸ htl)
  refine ⟨?_, ?_, ?_, ?_, ?_, ?_⟩
  · rw [hcompute]
    constructor
    · rintro ⟨r, hr, hdst⟩
      rcases foldl_solve_routes_sound hyst src sp l₂ _ r hr with
        hmem | ⟨t, htl, _, p, c, _, hdst', _⟩
      · cases hspT : sp T with
        | none =>
          rw [solve_target_skip hyst src sp A T (Or.inr (Or.inl hspT))] at hmem
          exact absurd hdst (hAroutes r hmem)
        | some pr =>
          obtain ⟨p, copt⟩ := pr
          cases copt with
          | none =>
            rw [solve_target_skip hyst src sp A T
              (Or.inr (Or.inr (Or.inl ⟨p, hspT⟩)))] at hmem
            exact absurd hdst (hAroutes r hmem)
          | some c =>
            by_cases hg : hysteresis_ok hyst c (dictGet hist (src, T))
            · exact ⟨p, c, rfl,
                (hysteresis_ok_iff hyst c (dictGet hist (src, T))).1 hg⟩
            · rw [solve_target_skip hyst src sp A T
                (Or.inr (Or.inr (Or.inr ⟨p, c, hspT,
                  by rw [hAhist]; simpa using hg⟩)))] at hmem
              exact absurd hdst (hAroutes r hmem)
      · rw [hdst'] at hdst
        exact absurd (append32_inj hdst) (hl₂ne t htl)
    · rintro ⟨p, c, hspT, hcond⟩
      have hg : hysteresis_ok hyst c (dictGet hist (src, T)) = true :=
        (hysteresis_ok_iff hyst c (dictGet hist (src, T))).2 hcond
      rw [solve_target_emit hyst src sp A T p c hTs hspT
        (by rw [hAhist]; exact hg) (hpath p c hspT)]
      refine ⟨if p.length = 2 then
          { dst_cidr := T ++ "/32", next_hop := "direct", reason := "default" }
        else { dst_cidr := T ++ "/32", next_hop := p.getD 1 "",
               reason := "optimized_path" }, ?_, ?_⟩
      · exact foldl_solve_routes_mono hyst src sp l₂ _ _
          (List.mem_append_right _ (by by_cases hl2 : p.length = 2 <;>
            simp [hl2]))
      · by_cases hl2 : p.length = 2 <;> simp [hl2]
  · intro p c hspT hg
    rw [hcompute, foldl_solve_hist hyst src sp T l₂ _ hl₂ne,
      solve_target_emit hyst src sp A T p c hTs hspT
        (by rw [hAhist]; exact hg) (hpath p c hspT)]
    exact dictGet_dictInsert_self A.2 (src, T) c
  · intro p c hspT hg
    rw [hcompute, foldl_solve_hist hyst src sp T l₂ _ hl₂ne,
      solve_target_skip hyst src sp A T (Or.inr (Or.inr (Or.inr ⟨p, c, hspT,
        by rw [hAhist]; exact hg⟩)))]
    exact hAhist
  · intro h1 c₀
    simp only [hysteresis_ok, decide_eq_true_eq]
    linarith
  · norm_num +decide [compute_routes_for, graphNodes, insertNode,
      hystExampleTd, hystExampleSp, solve_target, hysteresis_ok, dictGet,
      dictInsert, dictHasKey]
  · norm_num +decide [compute_routes_for, graphNodes, insertNode,
      hystExampleTd, hystExampleSp, solve_target, hysteresis_ok, dictGet,
      dictInsert, dictHasKey]

/-- C3, witness: the hysteresis example at fraction 0.15 with recorded
cost 100, applied at target B of the two-node example graph. -/
theorem C3_witness :
    compute_routes_for 0.15 "A" hystExampleTd (hystExampleSp 90)
      [(("A", "B"), 100)] = ([], [(("A", "B"), 100)]) :=
  (C3_hysteresis 0.15 "A" "B" hystExampleTd (hystExampleSp 80)
    [(("A", "B"), 100)] (by decide) (by decide) (by decide)
    (fun p c h => by
      have h2 : some (["A", "B"], (some 80 : Option ℚ)) = some (p, some c) := h
      have h3 : ["A", "B"] = p := congrArg Prod.fst (Option.some.inj h2)
      rw [← h3]
      decide)).2.2.2.2.1

end SdWan
